import Mathlib

/-!
Shallow embedding of the recipe/job engine of `biostar/recipes/models.py`
(Project / Access / Data / Analysis / Job models) together with proofs of the
behavioural claims about saving, clone propagation, parameter materialization,
table-of-contents building, count aggregation and job timing.

Conventions used in the embedding:
* Database rows become Lean structures; the database is a record of row lists.
  Primary keys (`id`) are `Nat` and are assumed assigned by the caller (Django
  assigns them on INSERT); `save` is modelled as replace-first-by-id or append.
* Nullable columns become `Option _`.  Nullable *string* columns (`label`,
  `sharable_token`) are plain `String` with `""` playing the role of the falsy
  value, which matches how the Python code tests them (`self.label or ...`).
* Timestamps are integers counting whole seconds (the claims only involve
  whole-second datetimes); `timezone.now()` becomes an explicit `now` argument
  and `util.get_uuid(n)` becomes explicit fresh-string arguments.
* External collaborators (the `mistune` markdown renderer behind `make_html`
  and the `toml` parser imported as `hjson`) are fields of an explicit
  configuration structure, as are `settings.MEDIA_ROOT`, `settings.TOC_ROOT`,
  `settings.BASE_URL` and the `MAX_NAME_LEN` / `MAX_LOG_LEN` constants from
  `const.py`.  The parser is fallible, returning `none` where `hjson.loads`
  raises.
* Code that would raise an uncaught Python exception (missing foreign row,
  `TypeError` on item assignment to a non-dict) is modelled with `Option`,
  `none` meaning the exception propagates to the caller.
* Filesystem side effects that no claim observes (directory creation) are not
  modelled; the manifest (table-of-contents) store used by `Data.make_toc` is
  modelled explicitly as a path-to-content association list.
-/

/-- Parsed parameter payload values: the closed variant of values the `toml`
parser (imported as `hjson` in the source) can produce that the claims need:
strings, integers, booleans, arrays and tables. -/
inductive JVal where
  | str (s : String)
  | num (n : Int)
  | bool (b : Bool)
  | arr (xs : List JVal)
  | obj (kvs : List (String × JVal))

/-- Mappings (Python dicts) are association lists preserving insertion order. -/
abbrev JMap := List (String × JVal)

/-- Dictionary lookup, `d.get(k)`. -/
def jGet (m : JMap) (k : String) : Option JVal :=
  (m.find? (fun kv => kv.1 == k)).map (fun kv => kv.2)

/-- Dictionary item assignment `d[k] = v`: replace in place the first (and in a
real dict, only) entry with key `k`, otherwise append, preserving insertion
order exactly as a Python dict does. -/
def jSet : JMap → String → JVal → JMap
  | [], k, v => [(k, v)]
  | kv :: rest, k, v =>
      if kv.1 = k then (k, v) :: rest else kv :: jSet rest k v

/-- Python truthiness of a parsed value (`bool(v)`). -/
def jTruthy : JVal → Bool
  | .str s => !(s == "")
  | .num n => !(n == 0)
  | .bool b => b
  | .arr xs => !xs.isEmpty
  | .obj kvs => !kvs.isEmpty

/-- Explicit configuration for the module-level globals of `models.py`:
Django settings, the constants of `const.py`, the markdown renderer
(`make_html`, whose output depends on the editing user through
`user.profile.trusted`) and the `toml`-as-`hjson` parameter parser. -/
structure Config where
  maxNameLen : Nat
  maxLogLen : Nat
  baseUrl : String
  mediaRoot : String
  tocRoot : String
  mkHtml : String → Option Nat → String
  parse : String → Option JMap

/-- A row of the `Project` table (fields touched by the modelled operations). -/
structure ProjectRec where
  id : Nat
  uid : String
  label : String
  sharable_token : String
  name : String
  text : String
  html : String
  owner : Nat
  lastedit_user : Option Nat
  lastedit_date : Option Int
  date : Option Int
  data_count : Nat
  recipes_count : Nat
  jobs_count : Nat
deriving DecidableEq

/-- A row of the `Access` table (the `post_save` hook on `Project` creates
write-access rows for owners). -/
structure AccessRec where
  user : Nat
  projectId : Nat
  access : Nat
deriving DecidableEq

/-- A row of the `Data` table (fields touched by the modelled operations). -/
structure DataRec where
  id : Nat
  uid : String
  name : String
  text : String
  html : String
  owner : Option Nat
  type : String
  lastedit_user : Option Nat
  lastedit_date : Option Int
  date : Option Int
  projectId : Nat
  size : Nat
  file : String
  file_count : Nat
  deleted : Bool
deriving DecidableEq

/-- A row of the `Analysis` (recipe) table. -/
structure AnalysisRec where
  id : Nat
  uid : String
  name : String
  text : String
  html : String
  owner : Nat
  security : Nat
  deleted : Bool
  root : Option Nat
  lastedit_user : Option Nat
  lastedit_date : Option Int
  date : Option Int
  projectId : Nat
  json_text : String
  template : String
  image : String
deriving DecidableEq

/-- A row of the `Job` table. -/
structure JobRec where
  id : Nat
  uid : String
  name : String
  text : String
  html : String
  owner : Nat
  state : Nat
  security : Nat
  deleted : Bool
  lastedit_user : Option Nat
  lastedit_date : Option Int
  date : Option Int
  start_date : Option Int
  end_date : Option Int
  analysisId : Nat
  projectId : Nat
  json_text : String
  template : String
  script : String
  stdout_log : String
  stderr_log : String
  valid : Bool
  path : String
deriving DecidableEq

/-- The database: one list of rows per table. -/
structure DB where
  projects : List ProjectRec
  analyses : List AnalysisRec
  datas : List DataRec
  jobs : List JobRec
  accesses : List AccessRec
deriving DecidableEq

/-- Security constant `Analysis.AUTHORIZED`. -/
def analysisAUTHORIZED : Nat := 1

/-- Security constant `Analysis.NOT_AUTHORIZED`. -/
def analysisNOTAUTHORIZED : Nat := 2

/-- Security constant `Job.AUTHORIZED`. -/
def jobAUTHORIZED : Nat := 1

/-- Security constant `Job.UNDER_REVIEW`. -/
def jobUNDERREVIEW : Nat := 2

/-- Access constant `Access.WRITE_ACCESS`. -/
def writeACCESS : Nat := 3

/-- Row lookup by primary key, as Django's implicit fetch of a foreign-key
attribute (`self.project`); `none` models `DoesNotExist`. -/
def findProject (db : DB) (i : Nat) : Option ProjectRec :=
  db.projects.find? (fun p => p.id == i)

/-- Row lookup for `Analysis` by primary key. -/
def findAnalysis (db : DB) (i : Nat) : Option AnalysisRec :=
  db.analyses.find? (fun a => a.id == i)

/-- Row lookup for `Data` by primary key. -/
def findData (db : DB) (i : Nat) : Option DataRec :=
  db.datas.find? (fun d => d.id == i)

/-- Row lookup for `Job` by primary key. -/
def findJob (db : DB) (i : Nat) : Option JobRec :=
  db.jobs.find? (fun j => j.id == i)

/-- `self.data_set.filter(deleted=False).count()` of `Project.set_counts`. -/
def liveDataCount (db : DB) (pid : Nat) : Nat :=
  (db.datas.filter (fun d => d.projectId == pid && !d.deleted)).length

/-- `self.analysis_set.filter(deleted=False).count()` of `Project.set_counts`. -/
def liveRecipeCount (db : DB) (pid : Nat) : Nat :=
  (db.analyses.filter (fun a => a.projectId == pid && !a.deleted)).length

/-- `self.job_set.filter(deleted=False).count()` of `Project.set_counts`. -/
def liveJobCount (db : DB) (pid : Nat) : Nat :=
  (db.jobs.filter (fun j => j.projectId == pid && !j.deleted)).length

/-- Python string slicing `s[:n]`: the first `n` code points.  (Python
strings are code-point sequences, hence the `List Char` view.) -/
def pySlice (s : String) (n : Nat) : String := ⟨s.data.take n⟩

/-- Worker for `pyReplace`: left-to-right non-overlapping replacement of the
pattern `o :: os`, with a structural fuel argument (one unit per consumed
character, so `fuel = length` never runs out). -/
def pyReplaceAux (o : Char) (os : List Char) (new : List Char) :
    Nat → List Char → List Char
  | _, [] => []
  | 0, s => s
  | fuel + 1, c :: rest =>
      if c = o ∧ os.isPrefixOf rest then
        new ++ pyReplaceAux o os new fuel (rest.drop os.length)
      else c :: pyReplaceAux o os new fuel rest

/-- Python `s.replace(old, new)` for a non-empty `old`: replace every
non-overlapping occurrence, scanning left to right. -/
def pyReplace (s old new : String) : String :=
  match old.data with
  | [] => s
  | o :: os => ⟨pyReplaceAux o os new.data s.data.length s.data⟩

/-- Worker for `pySplit`, accumulating the current (reversed) word. -/
def pySplitWsAux : List Char → List Char → List String
  | acc, [] => if acc.isEmpty then [] else [⟨acc.reverse⟩]
  | acc, c :: rest =>
      if c.isWhitespace then
        if acc.isEmpty then pySplitWsAux [] rest
        else ⟨acc.reverse⟩ :: pySplitWsAux [] rest
      else pySplitWsAux (c :: acc) rest

/-- Persisting a row: UPDATE the unique row with the same key if present
(replace in place), otherwise INSERT at the end — the effect of Django's
`Model.save` on a single table. -/
def upsertBy (key : α → Nat) : List α → α → List α
  | [], x => [x]
  | y :: rest, x =>
      if key y = key x then x :: rest else y :: upsertBy key rest x

/-- Field updates of `Project.save` (lines 144-160): default the date, the
sharable token, the uid and the label, re-render `html` from `text`, truncate
the name, default the last-edit fields, and recompute the counts
(`self.set_counts(save=False)`).  Directory creation is a filesystem effect no
claim observes and is not modelled. -/
def projectApplyDefaults (cfg : Config) (db : DB) (p : ProjectRec) (now : Int)
    (freshTok freshUid : String) : ProjectRec :=
  let date := p.date.getD now
  let tok := if p.sharable_token = "" then freshTok else p.sharable_token
  let html := cfg.mkHtml p.text p.lastedit_user
  let name := pySlice p.name cfg.maxNameLen
  let uid := if p.uid = "" then freshUid else p.uid
  let label := if p.label ≠ "" then p.label
               else if uid ≠ "" then uid else freshUid
  let leUser := p.lastedit_user.getD p.owner
  let leDate := p.lastedit_date.getD now
  { p with date := some date, sharable_token := tok, html := html,
           name := name, uid := uid, label := label,
           lastedit_user := some leUser, lastedit_date := some leDate,
           data_count := liveDataCount db p.id,
           recipes_count := liveRecipeCount db p.id,
           jobs_count := liveJobCount db p.id }

/-- The `post_save` receiver `update_access`: give the project owner a
WRITE_ACCESS row if they do not already have one. -/
def updateAccess (db : DB) (p : ProjectRec) : DB :=
  let has := db.accesses.any
    (fun ac => ac.user == p.owner && ac.projectId == p.id && ac.access == writeACCESS)
  if has then db
  else { db with accesses := db.accesses ++ [⟨p.owner, p.id, writeACCESS⟩] }

/-- `Project.save`: apply the field defaults and count refresh, persist the
row, then fire the `post_save` `update_access` hook. -/
def projectSave (cfg : Config) (db : DB) (p : ProjectRec) (now : Int)
    (freshTok freshUid : String) : DB :=
  let p' := projectApplyDefaults cfg db p now freshTok freshUid
  let db1 := { db with projects := upsertBy ProjectRec.id db.projects p' }
  updateAccess db1 p'

/-- `Project.set_counts(save=True)` as invoked from the child models' `save`
methods: set the three counts on the in-memory project instance and call
`Project.save` on it (which recomputes the same counts from the same table
state before persisting). -/
def setCountsSave (cfg : Config) (db : DB) (p : ProjectRec) (now : Int)
    (freshTok freshUid : String) : DB :=
  let p1 := { p with data_count := liveDataCount db p.id,
                     recipes_count := liveRecipeCount db p.id,
                     jobs_count := liveJobCount db p.id }
  projectSave cfg db p1 now freshTok freshUid

/-- Field updates of `Analysis.save` (lines 557-569), in source order: default
uid/date/text/name, render `html` (note: with the *pre-default* last-edit
user, as in the source), default the last-edit fields, and normalise the
template to Unix line endings. -/
def analysisApplyDefaults (cfg : Config) (a : AnalysisRec) (now : Int)
    (freshUid : String) : AnalysisRec :=
  let uid := if a.uid = "" then freshUid else a.uid
  let date := a.date.getD now
  let text := if a.text = "" then "Recipe description" else a.text
  let name0 := pySlice a.name cfg.maxNameLen
  let name := if name0 = "" then "New Recipe" else name0
  let html := cfg.mkHtml text a.lastedit_user
  let leUser := a.lastedit_user.getD a.owner
  let leDate := a.lastedit_date.getD now
  let template := if a.template = "" then "" else pyReplace a.template "\r\n" "\n"
  { a with uid := uid, date := some date, text := text, name := name,
           html := html, lastedit_user := some leUser,
           lastedit_date := some leDate, template := template }

/-- The `Project.objects.filter(uid=...).update(lastedit_date=now,
lastedit_user=...)` bulk update performed inside `Analysis.save` (line
571). -/
def touchProject (db : DB) (uid : String) (now : Int)
    (leUser : Option Nat) : DB :=
  let projs := db.projects.map
      (fun q => if q.uid = uid
                then { q with lastedit_date := some now,
                              lastedit_user := leUser }
                else q)
  { db with projects := projs }

/-- `Analysis.save` (lines 556-574): apply the field defaults, push the new
last-edit stamp onto the project row by uid (`touchProject`), run
`self.project.set_counts(save=True)` on the project instance loaded at call
time, and only then persist the analysis row itself.  `none` models the
`DoesNotExist` raised when the project row is missing.  Note that
`update_children` is *not* called here. -/
def analysisSave (cfg : Config) (db : DB) (a : AnalysisRec) (now : Int)
    (freshUid freshTok freshUid2 : String) : Option DB :=
  match findProject db a.projectId with
  | none => none
  | some p0 =>
    let a' := analysisApplyDefaults cfg a now freshUid
    let db1 := touchProject db p0.uid now a'.lastedit_user
    let db2 := setCountsSave cfg db1 p0 now freshTok freshUid2
    some { db2 with analyses := upsertBy AnalysisRec.id db2.analyses a' }

/-- Path of the table-of-contents manifest,
`join(settings.TOC_ROOT, f"toc-{uid}.txt")` (`Data.get_path`). -/
def tocPath (cfg : Config) (uid : String) : String :=
  cfg.tocRoot ++ "/toc-" ++ uid ++ ".txt"

/-- Field updates of `Data.save` (lines 334-351), in source order: truncate
the name, default uid/date, render `html` (with the pre-default last-edit
user), default the owner to the project owner, strip spaces from `type`,
default the last-edit fields, and point `file` at the table-of-contents path.
Creation of the data directory and of an empty manifest file are filesystem
effects no claim observes. -/
def dataApplyDefaults (cfg : Config) (d : DataRec) (p0 : ProjectRec)
    (now : Int) (freshUid : String) : DataRec :=
  let name := pySlice d.name cfg.maxNameLen
  let uid := if d.uid = "" then freshUid else d.uid
  let date := d.date.getD now
  let html := cfg.mkHtml d.text d.lastedit_user
  let owner := d.owner.getD p0.owner
  let ty := pyReplace d.type " " ""
  let leUser := d.lastedit_user.getD owner
  let leDate := d.lastedit_date.getD now
  { d with name := name, uid := uid, date := some date, html := html,
           owner := some owner, type := ty, lastedit_user := some leUser,
           lastedit_date := some leDate, file := tocPath cfg uid }

/-- `Data.save` (lines 334-360): apply the field defaults, persist the data
row, *then* run `self.project.set_counts(save=True)` — so the counts see the
row just saved. -/
def dataSave (cfg : Config) (db : DB) (d : DataRec) (now : Int)
    (freshUid freshTok freshUid2 : String) : Option DB :=
  match findProject db d.projectId with
  | none => none
  | some p0 =>
    let d' := dataApplyDefaults cfg d p0 now freshUid
    let db1 := { db with datas := upsertBy DataRec.id db.datas d' }
    some (setCountsSave cfg db1 p0 now freshTok freshUid2)

/-- Field updates of `Job.save` (lines 777-791), in source order: default the
name from the analysis, default date and text, render `html` (pre-default
last-edit user), truncate the name, default the uid, mirror the analysis
template, cap both logs, re-default the truncated name, derive `path`
(`make_path`), and default the last-edit fields. -/
def jobApplyDefaults (cfg : Config) (j : JobRec) (an : AnalysisRec)
    (now : Int) (freshUid : String) : JobRec :=
  let name1 := if j.name = "" then "Results for: " ++ an.name else j.name
  let date := j.date.getD now
  let text := if j.text = "" then an.text else j.text
  let html := cfg.mkHtml text j.lastedit_user
  let name2 := pySlice name1 cfg.maxNameLen
  let uid := if j.uid = "" then freshUid else j.uid
  let template := an.template
  let stderr := pySlice j.stderr_log cfg.maxLogLen
  let stdout := pySlice j.stdout_log cfg.maxLogLen
  let name3 := if name2 = "" then an.name else name2
  let path := cfg.mediaRoot ++ "/jobs/" ++ uid
  let leUser := j.lastedit_user.getD j.owner
  let leDate := j.lastedit_date.getD now
  { j with name := name3, date := some date, text := text, html := html,
           uid := uid, template := template, stderr_log := stderr,
           stdout_log := stdout, path := path, lastedit_user := some leUser,
           lastedit_date := some leDate }

/-- `Job.save` (lines 776-797): apply the field defaults, run
`self.project.set_counts(save=True)` and only then persist the job row —
so the counts do *not* see the row being saved. -/
def jobSave (cfg : Config) (db : DB) (j : JobRec) (now : Int)
    (freshUid freshTok freshUid2 : String) : Option DB :=
  match findAnalysis db j.analysisId, findProject db j.projectId with
  | some an, some p0 =>
    let j' := jobApplyDefaults cfg j an now freshUid
    let db1 := setCountsSave cfg db p0 now freshTok freshUid2
    some { db1 with jobs := upsertBy JobRec.id db1.jobs j' }
  | _, _ => none

/-- The first bulk update of `Analysis.update_children` (lines 593-613),
`children.update(...)`: a row whose `root` is this analysis (deleted or not)
receives the root's payload, template, name, security, last-edit stamp,
text, html and image; every other row is untouched. -/
def cloneUpdate (a : AnalysisRec) (c : AnalysisRec) : AnalysisRec :=
  if c.root = some a.id
  then { c with json_text := a.json_text,
                template := a.template,
                name := a.name,
                security := a.security,
                lastedit_date := a.lastedit_date,
                lastedit_user := a.lastedit_user,
                text := a.text,
                html := a.html,
                image := a.image }
  else c

/-- The second bulk update of `Analysis.update_children`: stamp a project row
with the root's last-edit fields when one of the (already updated) analysis
rows is a clone of the root living in that project. -/
def projStamp (db : DB) (a : AnalysisRec) (p : ProjectRec) : ProjectRec :=
  if (db.analyses.map (cloneUpdate a)).any
      (fun c => c.root == some a.id && c.projectId == p.id)
  then { p with lastedit_date := a.lastedit_date,
                lastedit_user := a.lastedit_user }
  else p

/-- The combined effect of `Analysis.update_children`: the children bulk
update (`cloneUpdate` on every analysis row) followed by the project
last-edit bulk update (`projStamp` on every project row). -/
def updateChildren (db : DB) (a : AnalysisRec) : DB :=
  { db with analyses := db.analyses.map (cloneUpdate a),
            projects := db.projects.map (projStamp db a) }

/-- Python's `str.split()` with no argument: split on runs of whitespace,
discarding empty pieces. -/
def pySplit (s : String) : List String := pySplitWsAux [] s.data

/-- The generated file-name stem of `Analysis.json_data`,
`f"{'_'.join(self.name.split())}_{self.project.uid}_{self.pk}"`. -/
def analysisBaseName (a : AnalysisRec) (projUid : String) : String :=
  String.intercalate "_" (pySplit a.name) ++ "_" ++ projUid ++ "_" ++ toString a.id

/-- Resolution of the `self.root` foreign key: `some none` when the recipe is
itself a root, `some (some r)` when the root row exists, `none` when the
foreign row is missing (Django would raise). -/
def resolveRoot (db : DB) (root : Option Nat) : Option (Option AnalysisRec) :=
  match root with
  | none => some none
  | some rid => (findAnalysis db rid).map some

/-- The derived-key overwrites of `Analysis.json_data` (lines 541-550), in
source order, applied to the previously stored `current_settings` dict `cs`:
display name, generated script and image file names, numeric id, the recipe
uid under both key names, help text, base URL, and the root id/uid (empty
strings when the recipe is itself a root). -/
def derivedSettings (cfg : Config) (a : AnalysisRec) (projUid : String)
    (rootRec : Option AnalysisRec) (cs : JMap) : JMap :=
  let base := analysisBaseName a projUid
  let template_name := base ++ ".sh"
  let image_name := base ++ ".png"
  let cs := jSet cs "name" (JVal.str a.name)
  let cs := jSet cs "template" (JVal.str template_name)
  let cs := jSet cs "image" (JVal.str image_name)
  let cs := jSet cs "id" (JVal.num a.id)
  let cs := jSet cs "recipe_uid" (JVal.str a.uid)
  let cs := jSet cs "uid" (JVal.str a.uid)
  let cs := jSet cs "help" (JVal.str a.text)
  let cs := jSet cs "url" (JVal.str cfg.baseUrl)
  let cs := jSet cs "root_id"
      (match rootRec with | some r => JVal.num r.id | none => JVal.str "")
  let cs := jSet cs "root_uid"
      (match rootRec with | some r => JVal.str r.uid | none => JVal.str "")
  cs

/-- `Analysis.json_data` (lines 521-554): parse the stored payload (an
exception inside `hjson.loads` is caught and replaced by `{}`), take the
previously stored `settings` entry if it is truthy (else a fresh dict),
overwrite the derived keys inside it in source order, and write it back.
The result is `none` exactly where the Python property would raise: when the
project (or referenced root) row is missing, or when the stored `settings`
entry is a *truthy non-dict* — `current_settings["name"] = ...` is then an
item assignment on a non-dict and raises `TypeError`, uncaught. -/
def analysisJsonData (cfg : Config) (db : DB) (a : AnalysisRec) : Option JMap :=
  match findProject db a.projectId with
  | none => none
  | some proj =>
    let json_data := (cfg.parse a.json_text).getD []
    let stored := (jGet json_data "settings").getD (JVal.obj [])
    let stored := if jTruthy stored then stored else JVal.obj []
    match stored, resolveRoot db a.root with
    | JVal.obj cs, some rootRec =>
        some (jSet json_data "settings"
          (JVal.obj (derivedSettings cfg a proj.uid rootRec cs)))
    | _, _ => none

/-- `Job.json_data` (lines 743-751): parse the stored payload, substituting an
empty dict (and logging) when the parse raises.  Total: never fails. -/
def jobJsonData (cfg : Config) (j : JobRec) : JMap :=
  (cfg.parse j.json_text).getD []

/-- Lexicographic comparison of character lists by code point, the order
Python's `list.sort()` uses on strings. -/
def charListLe : List Char → List Char → Bool
  | [], _ => true
  | _ :: _, [] => false
  | a :: as, b :: bs =>
      if a < b then true
      else if b < a then false
      else charListLe as bs

/-- Python's `str` ordering (code-point lexicographic), as an executable
comparison; proved below to agree with Mathlib's `String` order. -/
def pyStrLe (x y : String) : Bool := charListLe x.data y.data

/-- State acted on by `Data.make_toc`: the walk result over the data
directory, the stat sizes of the files that still exist when the size loop
runs, and the manifest store (path-to-content, written with plain overwrite).
The manifest files live under `TOC_ROOT`, outside every data directory, so
writing one never changes a walk result. -/
structure TocFs where
  dataFiles : List String
  sizeOf : String → Option Nat
  toc : List (String × String)

/-- Overwriting write of a manifest file (`open(tocname, 'w')`). -/
def tocWrite : List (String × String) → String → String → List (String × String)
  | [], k, v => [(k, v)]
  | kv :: rest, k, v =>
      if kv.1 = k then (k, v) :: rest else kv :: tocWrite rest k v

/-- `Data.make_toc` (lines 394-416).  `util.findfiles` is not part of the
sources under review; modelled from the spec: it walks all regular files
under the data directory recursively and returns their paths, here the
`dataFiles` component of the state.  `make_toc` sorts them
(`collect.sort()`), writes them newline-joined to the manifest file
(overwrite), then sums `stat().st_size` over the entries that are still
files (`os.path.isfile`) — a vanished file contributes nothing — and sets
`size`, `file` and `file_count` on the data row. -/
def dataMakeToc (cfg : Config) (st : TocFs) (d : DataRec) : TocFs × DataRec :=
  let tocname := tocPath cfg d.uid
  let collect := st.dataFiles.insertionSort (fun x y => pyStrLe x y = true)
  let content := String.intercalate "\n" collect
  let st' := { st with toc := tocWrite st.toc tocname content }
  let size := collect.foldl (fun acc e => acc + ((st.sizeOf e).getD 0)) 0
  (st', { d with size := size, file := tocname, file_count := collect.length })

/-- `Job.elapsed` normalisation of the timestamp difference: Python's
`timedelta.seconds` is the sub-day seconds component, always in
`[0, 86400)` (`timedelta` floors the day count). -/
def elapsedSeconds (startD endD : Int) : Nat :=
  ((endD - startD).emod 86400).toNat

/-- CPython's `round(seconds / 3600, 1)` followed by `str(...)`, for
`0 ≤ seconds < 86400`, returned as the numerator of the resulting multiple
of one tenth.  `seconds / 3600` is computed in binary double precision and
`round(x, 1)` returns the decimal-nearest tenth of that double (half-to-even
on exact ties).  For `seconds` not congruent to `180 (mod 360)` the quotient
is more than `1/360` away from every tie point, far beyond the double's
error, so plain nearest rounding of the rational is exact.  At a tie point
`seconds = 180*o` (`o` odd) the quotient is `o/20`: when `o` is divisible by
5 this is dyadic, the double is exact and the tie resolves half-to-even;
otherwise the tie resolves in the direction the 53-bit rounding of `o/20`
moved, which is read off the fractional part of `o * 2^(52-e) / 20` where
`2^e ≤ o/20 < 2^(e+1)`. -/
def pyRoundTenths (seconds : Nat) : Nat :=
  if seconds % 360 == 180 then
    let o := seconds / 180
    let lo := (o - 1) / 2
    let hi := (o + 1) / 2
    let e := Nat.log2 (o / 20)
    let n := o * 2 ^ (52 - e)
    if n % 20 == 0 then (if lo % 2 == 0 then lo else hi)
    else if n % 20 > 10 then hi else lo
  else (10 * seconds + 1800) / 3600

/-- Rendering of the rounded hours value as Python's `f'{hours} hours'`
(`str` of a float that is an exact multiple of one tenth prints one decimal
digit). -/
def hoursString (m : Nat) : String :=
  toString (m / 10) ++ "." ++ toString (m % 10) ++ " hours"

/-- `Job.elapsed` (lines 753-767): empty string unless both timestamps are
set; otherwise bucket `(end_date - start_date).seconds` — the *sub-day*
seconds component — into seconds, minutes (`int(seconds / 60)`, which for
`seconds < 3600` equals floor division) or hours (`round(seconds / 3600, 1)`
printed with one decimal). -/
def jobElapsed (j : JobRec) : String :=
  match j.start_date, j.end_date with
  | some s, some e =>
    let seconds := elapsedSeconds s e
    if seconds < 60 then toString seconds ++ " seconds"
    else if seconds < 3600 then toString (seconds / 60) ++ " minutes"
    else hoursString (pyRoundTenths seconds)
  | _, _ => ""

/-- `Analysis.runnable` (lines 619-620). -/
def analysisRunnable (a : AnalysisRec) : Bool :=
  a.security == analysisAUTHORIZED

/-- `Job.runnable` (lines 811-816): the related analysis must be runnable and
the job's own security must be AUTHORIZED.  `none` models the missing
foreign analysis row. -/
def jobRunnable (db : DB) (j : JobRec) : Option Bool :=
  (findAnalysis db j.analysisId).map
    (fun an => analysisRunnable an && (j.security == jobAUTHORIZED))

/-- A concrete configuration for concrete test instances: identity markdown
renderer, a parser that always fails (payloads that are not valid toml), and
small settings values. -/
def cfgNoParse : Config :=
  { maxNameLen := 100, maxLogLen := 10000, baseUrl := "http://test",
    mediaRoot := "/media", tocRoot := "/toc",
    mkHtml := fun t _ => t, parse := fun _ => none }

/-- A configuration whose parser returns a payload with a truthy non-dict
`settings` entry, as `toml.loads` does on the valid document
`settings = 5`. -/
def cfgScalarSettings : Config :=
  { cfgNoParse with parse := fun _ => some [("settings", JVal.num 5)] }

/-- A stored payload with a stale `settings` dict, as `toml.loads` produces
from a `[settings]` table. -/
def storedPayload : JMap :=
  [("run", JVal.obj [("x", JVal.num 1)]),
   ("settings", JVal.obj [("uid", JVal.str "stale"),
                          ("extra", JVal.bool true)])]

/-- A configuration whose parser returns `storedPayload` for every text. -/
def cfgStoredSettings : Config :=
  { cfgNoParse with parse := fun _ => some storedPayload }

/-- Concrete project fixture. -/
def projBase : ProjectRec :=
  { id := 1, uid := "proj1", label := "proj1", sharable_token := "tok123",
    name := "Test Project", text := "A project", html := "A project",
    owner := 7, lastedit_user := some 7, lastedit_date := some 100,
    date := some 50, data_count := 0, recipes_count := 2, jobs_count := 0 }

/-- Concrete root recipe fixture. -/
def rootRecipe : AnalysisRec :=
  { id := 1, uid := "root1", name := "Recipe", text := "desc", html := "desc",
    owner := 7, security := analysisNOTAUTHORIZED, deleted := false,
    root := none, lastedit_user := some 7, lastedit_date := some 100,
    date := some 50, projectId := 1, json_text := "", template := "echo hi",
    image := "img.png" }

/-- Concrete clone fixture: a recipe whose `root` is `rootRecipe`. -/
def cloneRecipe : AnalysisRec :=
  { rootRecipe with id := 2, uid := "clone1", root := some 1 }

/-- Database holding the project, the root recipe and its clone. -/
def dbClone : DB :=
  { projects := [projBase], analyses := [rootRecipe, cloneRecipe],
    datas := [], jobs := [], accesses := [] }

/-- The root recipe with its template edited, about to be saved. -/
def rootEdited : AnalysisRec := { rootRecipe with template := "echo bye" }

/-- Project fixture with no children yet. -/
def projEmpty : ProjectRec := { projBase with id := 3, uid := "proj3", recipes_count := 0 }

/-- Database holding only the empty project. -/
def dbEmpty : DB :=
  { projects := [projEmpty], analyses := [], datas := [], jobs := [],
    accesses := [] }

/-- A brand-new recipe row being created in the empty project. -/
def newRecipe : AnalysisRec :=
  { rootRecipe with id := 5, uid := "new1", projectId := 3 }

/-- An authorized recipe fixture. -/
def authRecipe : AnalysisRec :=
  { rootRecipe with security := analysisAUTHORIZED }

/-- Concrete job fixture, under review, attached to `authRecipe`. -/
def jobUnderReview : JobRec :=
  { id := 1, uid := "job1", name := "Job", text := "t", html := "t",
    owner := 7, state := 1, security := jobUNDERREVIEW, deleted := false,
    lastedit_user := some 7, lastedit_date := some 100, date := some 50,
    start_date := some 1000, end_date := some 1125, analysisId := 1,
    projectId := 1, json_text := "", template := "tmpl", script := "",
    stdout_log := "", stderr_log := "", valid := true, path := "" }

/-- Database for the runnable scenario. -/
def dbJob : DB :=
  { projects := [projBase], analyses := [authRecipe], datas := [],
    jobs := [jobUnderReview], accesses := [] }

/-- A job that ran for exactly 125 seconds. -/
def jobShort : JobRec :=
  { jobUnderReview with start_date := some 1000, end_date := some 1125 }

/-- A job that ran for exactly one day plus 125 seconds. -/
def jobDayLong : JobRec :=
  { jobUnderReview with start_date := some 1000, end_date := some (1000 + 86525) }

/-- Filesystem fixture for the TOC scenario: data directory `/d` holding
`b.txt` and `a.txt`, both 3 bytes, empty manifest store. -/
def tocFsScenario : TocFs :=
  { dataFiles := ["/d/b.txt", "/d/a.txt"], sizeOf := fun _ => some 3,
    toc := [] }

/-- Data row fixture for the TOC scenario. -/
def dataScenario : DataRec :=
  { id := 1, uid := "d1", name := "Data", text := "t", html := "t",
    owner := some 7, type := "DATA", lastedit_user := some 7,
    lastedit_date := some 100, date := some 50, projectId := 1, size := 0,
    file := "", file_count := 0, deleted := false }

/-- A brand-new data row being created in the empty project. -/
def newData : DataRec :=
  { dataScenario with id := 6, uid := "dnew", projectId := 3 }

/-- A brand-new job row being created in the empty project, running
`newRecipe`. -/
def newJob : JobRec :=
  { jobUnderReview with id := 8, uid := "jnew", projectId := 3, analysisId := 5 }

/-- Database holding the empty project plus `newRecipe`, for the job-save
count instance. -/
def dbEmptyWithRecipe : DB :=
  { dbEmpty with analyses := [newRecipe] }

/-- Manifest lookup (reading the toc file contents back). -/
def tocRead (m : List (String × String)) (k : String) : Option String :=
  (m.find? (fun kv => kv.1 == k)).map (fun kv => kv.2)

/-- The stored `settings` entry of a parsed payload supports the item
assignments of `Analysis.json_data`: it is absent, falsy (Python `or {}`
replaces it), or a dict.  A truthy non-dict makes
`current_settings["name"] = ...` raise `TypeError`. -/
def settingsAssignable (o : Option JMap) : Bool :=
  match (jGet (o.getD []) "settings").getD (JVal.obj []) with
  | JVal.obj _ => true
  | v => !(jTruthy v)

/-- The in-memory root instance as it stands at the end of its save. -/
def rootEditedSaved : AnalysisRec :=
  analysisApplyDefaults cfgNoParse rootEdited 200 "u1"

/-- The database after the edited root has been saved. -/
def dbCloneSaved : DB :=
  (analysisSave cfgNoParse dbClone rootEdited 200 "u1" "u2" "u3").getD dbClone

/-- The database after saving the new data row in the project holding
`newRecipe`. -/
def dbWDataSaved : DB :=
  (dataSave cfgNoParse dbEmptyWithRecipe newData 200 "u1" "u2" "u3").getD
    dbEmpty

/-- The database after re-saving `newRecipe` in the project holding it. -/
def dbWRecipeSaved : DB :=
  (analysisSave cfgNoParse dbEmptyWithRecipe newRecipe 200 "u1" "u2"
    "u3").getD dbEmpty

/-- The database after saving the new job row in the project holding
`newRecipe`. -/
def dbWJobSaved : DB :=
  (jobSave cfgNoParse dbEmptyWithRecipe newJob 200 "u1" "u2" "u3").getD
    dbEmpty

/-- Looking up the key just assigned returns the assigned value. -/
theorem jGet_jSet_self (m : JMap) (k : String) (v : JVal) :
    jGet (jSet m k v) k = some v := by
  induction m with
  | nil => simp [jSet, jGet]
  | cons kv rest ih =>
      by_cases h : kv.1 = k
      · simp [jSet, jGet, h]
      · simpa [jSet, jGet, List.find?, h] using ih

/-- Assigning one key leaves lookups of other keys unchanged. -/
theorem jGet_jSet_ne (m : JMap) (k k' : String) (v : JVal) (h : k' ≠ k) :
    jGet (jSet m k' v) k = jGet m k := by
  have hb : (k' == k) = false := beq_eq_false_iff_ne.mpr h
  induction m with
  | nil => simp [jSet, jGet, List.find?, hb]
  | cons kv rest ih =>
      by_cases hk : kv.1 = k'
      · subst hk
        simp [jSet, jGet, List.find?, hb]
      · by_cases hk2 : kv.1 = k
        · have hb2 : (kv.1 == k) = true := beq_iff_eq.mpr hk2
          simp [jSet, jGet, List.find?, hk, hb2]
        · have hb2 : (kv.1 == k) = false := beq_eq_false_iff_ne.mpr hk2
          simp only [jSet, if_neg hk]
          simp only [jGet, List.find?, hb2] at ih ⊢
          exact ih

/-- Overwriting the same manifest twice equals overwriting it once. -/
theorem tocWrite_tocWrite (m : List (String × String)) (k : String)
    (v w : String) : tocWrite (tocWrite m k v) k w = tocWrite m k w := by
  induction m with
  | nil => simp [tocWrite]
  | cons kv rest ih =>
      by_cases h : kv.1 = k
      · simp [tocWrite, h]
      · simp [tocWrite, h, ih]

/-- Reading the manifest just written returns its content. -/
theorem tocRead_tocWrite_self (m : List (String × String)) (k : String)
    (v : String) : tocRead (tocWrite m k v) k = some v := by
  induction m with
  | nil => simp [tocWrite, tocRead]
  | cons kv rest ih =>
      by_cases h : kv.1 = k
      · simp [tocWrite, tocRead, h]
      · simpa [tocWrite, tocRead, List.find?, h] using ih

/-- `charListLe` decides the negation of Mathlib's lexicographic strict order
in the reverse direction. -/
theorem charListLe_iff : ∀ as bs : List Char,
    charListLe as bs = true ↔ ¬ List.Lex (· < ·) bs as
  | [], [] => by
      simp only [charListLe]
      constructor
      · intro _ h; cases h
      · intro _; trivial
  | [], _ :: _ => by
      simp only [charListLe]
      constructor
      · intro _ h; cases h
      · intro _; trivial
  | _ :: _, [] => by
      simp only [charListLe]
      constructor
      · intro h; cases h
      · intro h; exact absurd List.Lex.nil h
  | a :: as, b :: bs => by
      by_cases hab : a < b
      · simp only [charListLe, hab, if_true]
        constructor
        · intro _ h
          cases h with
          | cons h' => exact absurd hab (lt_irrefl a)
          | rel h' => exact absurd hab (lt_asymm h')
        · intro _; trivial
      · by_cases hba : b < a
        · simp only [charListLe, hab, hba, if_false, if_true]
          constructor
          · intro h; cases h
          · intro h; exact absurd (List.Lex.rel hba) h
        · have heq : a = b := le_antisymm (le_of_not_lt hba) (le_of_not_lt hab)
          subst heq
          simp only [charListLe, lt_irrefl, if_false]
          rw [charListLe_iff as bs]
          constructor
          · intro h hl
            cases hl with
            | cons h' => exact h h'
            | rel h' => exact absurd h' (lt_irrefl a)
          · intro h hl
            exact h (List.Lex.cons hl)

/-- The executable comparison agrees with Mathlib's `String` order. -/
theorem pyStrLe_iff_le (x y : String) : pyStrLe x y = true ↔ x ≤ y := by
  have h1 : x ≤ y ↔ ¬ y < x := Iff.symm not_lt
  rw [pyStrLe, h1, String.lt_iff_toList_lt]
  exact charListLe_iff x.data y.data

instance : IsTotal String (fun x y => pyStrLe x y = true) :=
  ⟨fun a b => by
    rcases le_total a b with h | h
    · exact Or.inl ((pyStrLe_iff_le a b).mpr h)
    · exact Or.inr ((pyStrLe_iff_le b a).mpr h)⟩

instance : IsTrans String (fun x y => pyStrLe x y = true) :=
  ⟨fun a b c hab hbc => (pyStrLe_iff_le a c).mpr
    (le_trans ((pyStrLe_iff_le a b).mp hab) ((pyStrLe_iff_le b c).mp hbc))⟩

/-- Looking up the key of a freshly upserted row finds exactly that row. -/
theorem find?_upsertBy_self (key : α → Nat) (l : List α) (x : α) :
    (upsertBy key l x).find? (fun y => key y == key x) = some x := by
  induction l with
  | nil => simp [upsertBy, List.find?]
  | cons y rest ih =>
      by_cases h : key y = key x
      · simp [upsertBy, h, List.find?]
      · have hb : (key y == key x) = false := beq_eq_false_iff_ne.mpr h
        simp only [upsertBy, h, if_false]
        simp only [List.find?, hb]
        exact ih

/-- After `update_children` every clone row of the given root carries the
root's propagated field values. -/
theorem updateChildren_clone_fields {db : DB} {a : AnalysisRec}
    {c : AnalysisRec} (hc : c ∈ (updateChildren db a).analyses)
    (hroot : c.root = some a.id) :
    c.json_text = a.json_text ∧ c.template = a.template ∧ c.name = a.name ∧
    c.security = a.security ∧ c.lastedit_date = a.lastedit_date ∧
    c.lastedit_user = a.lastedit_user ∧ c.text = a.text ∧ c.html = a.html ∧
    c.image = a.image := by
  simp only [updateChildren, List.mem_map] at hc
  obtain ⟨c0, _, rfl⟩ := hc
  by_cases h : c0.root = some a.id
  · simp [cloneUpdate, h]
  · simp only [cloneUpdate, h, if_false] at hroot

/-- After `update_children` every project containing a clone of the given
root carries the root's last-edit stamp. -/
theorem updateChildren_project_stamp {db : DB} {a : AnalysisRec}
    {p : ProjectRec} {c : AnalysisRec}
    (hp : p ∈ (updateChildren db a).projects)
    (hc : c ∈ (updateChildren db a).analyses)
    (hcroot : c.root = some a.id) (hcproj : c.projectId = p.id) :
    p.lastedit_date = a.lastedit_date ∧ p.lastedit_user = a.lastedit_user := by
  simp only [updateChildren, List.mem_map] at hp
  simp only [updateChildren] at hc
  obtain ⟨p0, _, rfl⟩ := hp
  by_cases h : (db.analyses.map (cloneUpdate a)).any
      (fun c => c.root == some a.id && c.projectId == (projStamp db a p0).id) = true
  · have hid : (projStamp db a p0).id = p0.id := by
      unfold projStamp
      split <;> rfl
    rw [hid] at h
    simp [projStamp, h]
  · exfalso
    apply h
    refine List.any_eq_true.mpr ⟨c, hc, ?_⟩
    have h1 : (c.root == some a.id) = true := beq_iff_eq.mpr hcroot
    have h2 : (c.projectId == (projStamp db a p0).id) = true :=
      beq_iff_eq.mpr hcproj
    rw [h1, h2]
    rfl

/-- C1 counterexample: saving the edited root recipe (`Analysis.save`)
completes and persists `template = "echo bye"` on the root, yet the clone row
still holds the old template `"echo hi"` — `Analysis.save` never invokes
`update_children`, so propagation is not part of the save operation
itself. -/
theorem analysis_save_leaves_clone_stale :
    ((analysisSave cfgNoParse dbClone rootEdited 200 "u1" "u2" "u3").bind
        (fun db => (findAnalysis db 2).map (fun c => c.template)))
      = some "echo hi" ∧
    ((analysisSave cfgNoParse dbClone rootEdited 200 "u1" "u2" "u3").bind
        (fun db => (findAnalysis db 1).map (fun c => c.template)))
      = some "echo bye" ∧
    cloneRecipe.root = some rootEdited.id ∧
    ("echo hi" : String) ≠ "echo bye" := by
  refine ⟨?_, ?_, rfl, by decide⟩ <;> rfl

/-- C1 (amended): propagation to clones is not performed by the root's save
itself; it happens when `update_children` is invoked on the saved root (as
the edit views do after saving).  After `Analysis.save` completes and
`update_children` runs on the saved in-memory instance, every clone of the
root mirrors the root's new template (and name, security, html). -/
theorem clone_sync_after_update_children (cfg : Config) (db db' : DB)
    (a : AnalysisRec) (now : Int) (u1 u2 u3 : String)
    (hs : analysisSave cfg db a now u1 u2 u3 = some db')
    (c : AnalysisRec)
    (hc : c ∈ (updateChildren db' (analysisApplyDefaults cfg a now u1)).analyses)
    (hroot : c.root = some a.id) :
    c.template = (analysisApplyDefaults cfg a now u1).template ∧
    c.name = (analysisApplyDefaults cfg a now u1).name ∧
    c.security = (analysisApplyDefaults cfg a now u1).security ∧
    c.html = (analysisApplyDefaults cfg a now u1).html := by
  have hid : (analysisApplyDefaults cfg a now u1).id = a.id := rfl
  rw [← hid] at hroot
  obtain ⟨_, h2, h3, h4, _, _, _, h8, _⟩ := updateChildren_clone_fields hc hroot
  exact ⟨h2, h3, h4, h8⟩

/-- C1 witness: the amended theorem applied to the concrete clone scenario.
The saved root's template is `"echo bye"` and after `update_children` the
clone row carries it. -/
theorem clone_sync_after_update_children_witness :
    analysisSave cfgNoParse dbClone rootEdited 200 "u1" "u2" "u3"
      = some dbCloneSaved ∧
    cloneUpdate rootEditedSaved cloneRecipe
      ∈ (updateChildren dbCloneSaved rootEditedSaved).analyses ∧
    (cloneUpdate rootEditedSaved cloneRecipe).root = some rootEdited.id ∧
    rootEditedSaved.template = "echo bye" ∧
    ((cloneUpdate rootEditedSaved cloneRecipe).template
        = rootEditedSaved.template ∧
     (cloneUpdate rootEditedSaved cloneRecipe).name = rootEditedSaved.name ∧
     (cloneUpdate rootEditedSaved cloneRecipe).security
        = rootEditedSaved.security ∧
     (cloneUpdate rootEditedSaved cloneRecipe).html = rootEditedSaved.html) :=
  ⟨rfl, by decide, by decide, by decide,
   clone_sync_after_update_children cfgNoParse dbClone dbCloneSaved rootEdited
     200 "u1" "u2" "u3" rfl (cloneUpdate rootEditedSaved cloneRecipe)
     (by decide) (by decide)⟩

/-- C2: after `update_children` on a root analysis, every analysis row whose
root is that analysis mirrors its template, security, html, json_text, name,
text, image and last-edit fields, and every project containing such a clone
carries the root's last-edit date and user. -/
theorem update_children_propagates (db : DB) (a : AnalysisRec) :
    (∀ c ∈ (updateChildren db a).analyses, c.root = some a.id →
        c.template = a.template ∧ c.security = a.security ∧ c.html = a.html ∧
        c.json_text = a.json_text ∧ c.name = a.name ∧ c.text = a.text ∧
        c.image = a.image ∧ c.lastedit_date = a.lastedit_date ∧
        c.lastedit_user = a.lastedit_user) ∧
    (∀ p ∈ (updateChildren db a).projects,
     ∀ c ∈ (updateChildren db a).analyses,
        c.root = some a.id → c.projectId = p.id →
        p.lastedit_date = a.lastedit_date ∧
        p.lastedit_user = a.lastedit_user) := by
  constructor
  · intro c hc hroot
    obtain ⟨h1, h2, h3, h4, h5, h6, h7, h8, h9⟩ :=
      updateChildren_clone_fields hc hroot
    exact ⟨h2, h4, h8, h1, h3, h7, h9, h5, h6⟩
  · intro p hp c hc hroot hproj
    exact updateChildren_project_stamp hp hc hroot hproj

/-- C2 witness: the propagation theorem applied to the concrete clone
scenario database. -/
theorem update_children_propagates_witness :
    cloneUpdate rootRecipe cloneRecipe
      ∈ (updateChildren dbClone rootRecipe).analyses ∧
    (cloneUpdate rootRecipe cloneRecipe).root = some rootRecipe.id ∧
    projStamp dbClone rootRecipe projBase
      ∈ (updateChildren dbClone rootRecipe).projects ∧
    (cloneUpdate rootRecipe cloneRecipe).projectId
      = (projStamp dbClone rootRecipe projBase).id ∧
    ((cloneUpdate rootRecipe cloneRecipe).template = rootRecipe.template ∧
     (cloneUpdate rootRecipe cloneRecipe).security = rootRecipe.security ∧
     (cloneUpdate rootRecipe cloneRecipe).html = rootRecipe.html ∧
     (cloneUpdate rootRecipe cloneRecipe).json_text = rootRecipe.json_text ∧
     (cloneUpdate rootRecipe cloneRecipe).name = rootRecipe.name ∧
     (cloneUpdate rootRecipe cloneRecipe).text = rootRecipe.text ∧
     (cloneUpdate rootRecipe cloneRecipe).image = rootRecipe.image ∧
     (cloneUpdate rootRecipe cloneRecipe).lastedit_date
        = rootRecipe.lastedit_date ∧
     (cloneUpdate rootRecipe cloneRecipe).lastedit_user
        = rootRecipe.lastedit_user) ∧
    ((projStamp dbClone rootRecipe projBase).lastedit_date
        = rootRecipe.lastedit_date ∧
     (projStamp dbClone rootRecipe projBase).lastedit_user
        = rootRecipe.lastedit_user) :=
  ⟨by decide, by decide, by decide, by decide,
   (update_children_propagates dbClone rootRecipe).1
     (cloneUpdate rootRecipe cloneRecipe) (by decide) (by decide),
   (update_children_propagates dbClone rootRecipe).2
     (projStamp dbClone rootRecipe projBase) (by decide)
     (cloneUpdate rootRecipe cloneRecipe) (by decide) (by decide) (by decide)⟩

/-- C9: a job is runnable exactly when its analysis is authorized and its own
security flag is authorized; with an authorized analysis, a job under review
is not runnable and becomes runnable once its security is set to
authorized. -/
theorem job_runnable_characterization (db : DB) (j : JobRec)
    (an : AnalysisRec) (h : findAnalysis db j.analysisId = some an) :
    (jobRunnable db j = some true ↔
        (an.security = analysisAUTHORIZED ∧ j.security = jobAUTHORIZED)) ∧
    (an.security = analysisAUTHORIZED → j.security = jobUNDERREVIEW →
        jobRunnable db j = some false) ∧
    (an.security = analysisAUTHORIZED →
        jobRunnable db { j with security := jobAUTHORIZED } = some true) := by
  have hr : jobRunnable db j =
      some (analysisRunnable an && (j.security == jobAUTHORIZED)) := by
    simp [jobRunnable, h]
  refine ⟨?_, ?_, ?_⟩
  · rw [hr]
    simp [analysisRunnable, Bool.and_eq_true, beq_iff_eq]
  · intro h1 h2
    rw [hr]
    simp [analysisRunnable, h1, h2, analysisAUTHORIZED, jobAUTHORIZED,
          jobUNDERREVIEW]
  · intro h1
    have hr2 : jobRunnable db { j with security := jobAUTHORIZED } =
        some (analysisRunnable an && (jobAUTHORIZED == jobAUTHORIZED)) := by
      simp [jobRunnable, h]
    rw [hr2]
    simp [analysisRunnable, h1, analysisAUTHORIZED]

/-- C9 witness: the characterization applied to the concrete job under
review attached to an authorized recipe. -/
theorem job_runnable_characterization_witness :
    findAnalysis dbJob jobUnderReview.analysisId = some authRecipe ∧
    ((jobRunnable dbJob jobUnderReview = some true ↔
        (authRecipe.security = analysisAUTHORIZED ∧
         jobUnderReview.security = jobAUTHORIZED)) ∧
     (authRecipe.security = analysisAUTHORIZED →
      jobUnderReview.security = jobUNDERREVIEW →
        jobRunnable dbJob jobUnderReview = some false) ∧
     (authRecipe.security = analysisAUTHORIZED →
        jobRunnable dbJob { jobUnderReview with security := jobAUTHORIZED }
          = some true)) :=
  ⟨rfl, job_runnable_characterization dbJob jobUnderReview authRecipe rfl⟩

/-- C10: `elapsed` computes from the sub-day seconds component of the
timestamp difference, so whole days are ignored: a job that ran for one day
plus 125 seconds reports `"2 minutes"`, the same value as a 125-second
run. -/
theorem job_elapsed_ignores_whole_days (j j2 : JobRec) (s e s2 e2 : Int)
    (h1 : j.start_date = some s) (h2 : j.end_date = some e)
    (h3 : e - s = 86525)
    (h4 : j2.start_date = some s2) (h5 : j2.end_date = some e2)
    (h6 : e2 - s2 = 125) :
    jobElapsed j = "2 minutes" ∧ jobElapsed j2 = jobElapsed j := by
  have k1 : elapsedSeconds s e = 125 := by
    rw [elapsedSeconds, h3]; decide
  have k2 : elapsedSeconds s2 e2 = 125 := by
    rw [elapsedSeconds, h6]; decide
  have g1 : jobElapsed j = "2 minutes" := by
    simp only [jobElapsed, h1, h2, k1]
    decide
  have g2 : jobElapsed j2 = "2 minutes" := by
    simp only [jobElapsed, h4, h5, k2]
    decide
  exact ⟨g1, g2.trans g1.symm⟩

/-- C10 witness: the day-ignoring theorem applied to the concrete pair of
jobs 86525 and 125 seconds long. -/
theorem job_elapsed_ignores_whole_days_witness :
    jobDayLong.start_date = some 1000 ∧
    jobDayLong.end_date = some (1000 + 86525) ∧
    ((1000 : Int) + 86525) - 1000 = 86525 ∧
    jobShort.start_date = some 1000 ∧ jobShort.end_date = some 1125 ∧
    (1125 : Int) - 1000 = 125 ∧
    (jobElapsed jobDayLong = "2 minutes" ∧
     jobElapsed jobShort = jobElapsed jobDayLong) :=
  ⟨rfl, rfl, by decide, rfl, rfl, by decide,
   job_elapsed_ignores_whole_days jobDayLong jobShort 1000 (1000 + 86525)
     1000 1125 rfl rfl (by decide) rfl rfl (by decide)⟩

/-- C8 counterexample: a job whose start and end are 86525 seconds apart
(one day plus 125 seconds, a duration well over 3600 seconds) reports
`"2 minutes"`, not the hours-format value `"24.0 hours"` that bucketing the
full duration would give — the buckets are chosen from the sub-day seconds
component, not from the duration. -/
theorem job_elapsed_bucket_cex :
    jobDayLong.end_date.getD 0 - jobDayLong.start_date.getD 0 = 86525 ∧
    (3600 : Int) ≤ 86525 ∧
    jobElapsed jobDayLong = "2 minutes" ∧
    ("2 minutes" : String) ≠ "24.0 hours" := by
  refine ⟨by decide, by decide, ?_, by decide⟩
  decide

/-- C8 (amended): with both timestamps set, `elapsed` buckets the *sub-day
seconds component* `sec := ((end_date - start_date) mod 86400)` of the
difference, not the full duration: `"‹sec› seconds"` for `sec < 60`,
`"‹sec/60› minutes"` for `sec < 3600`, and the hours string
`round(sec/3600, 1)` (CPython float rounding, one decimal printed)
otherwise; with either timestamp unset it returns the empty string. -/
theorem job_elapsed_buckets (j : JobRec) (s e : Int)
    (h1 : j.start_date = some s) (h2 : j.end_date = some e) :
    (elapsedSeconds s e < 60 →
        jobElapsed j = toString (elapsedSeconds s e) ++ " seconds") ∧
    (60 ≤ elapsedSeconds s e → elapsedSeconds s e < 3600 →
        jobElapsed j = toString (elapsedSeconds s e / 60) ++ " minutes") ∧
    (3600 ≤ elapsedSeconds s e →
        jobElapsed j = hoursString (pyRoundTenths (elapsedSeconds s e))) ∧
    (∀ j2 : JobRec, j2.start_date = none ∨ j2.end_date = none →
        jobElapsed j2 = "") := by
  refine ⟨fun hlt => ?_, fun hge hlt => ?_, fun hge => ?_, fun j2 hcase => ?_⟩
  · simp only [jobElapsed, h1, h2]
    rw [if_pos hlt]
  · simp only [jobElapsed, h1, h2]
    rw [if_neg (by omega), if_pos hlt]
  · simp only [jobElapsed, h1, h2]
    rw [if_neg (by omega), if_neg (by omega)]
  · rcases hcase with hn | hn <;>
      cases hs : j2.start_date <;> cases he : j2.end_date <;>
      simp_all [jobElapsed]

/-- C8 witness: the bucket theorem applied to the 125-second job, whose
sub-day component is 125, giving the minutes bucket `"2 minutes"`. -/
theorem job_elapsed_buckets_witness :
    jobShort.start_date = some 1000 ∧ jobShort.end_date = some 1125 ∧
    elapsedSeconds 1000 1125 = 125 ∧
    toString (elapsedSeconds 1000 1125 / 60) ++ " minutes" = "2 minutes" ∧
    ((elapsedSeconds 1000 1125 < 60 →
        jobElapsed jobShort
          = toString (elapsedSeconds 1000 1125) ++ " seconds") ∧
     (60 ≤ elapsedSeconds 1000 1125 → elapsedSeconds 1000 1125 < 3600 →
        jobElapsed jobShort
          = toString (elapsedSeconds 1000 1125 / 60) ++ " minutes") ∧
     (3600 ≤ elapsedSeconds 1000 1125 →
        jobElapsed jobShort
          = hoursString (pyRoundTenths (elapsedSeconds 1000 1125))) ∧
     (∀ j2 : JobRec, j2.start_date = none ∨ j2.end_date = none →
        jobElapsed j2 = "")) :=
  ⟨rfl, rfl, by decide, by decide,
   job_elapsed_buckets jobShort 1000 1125 rfl rfl⟩

/-- Looking up `uid` in the derived settings returns the recipe's uid. -/
theorem derivedSettings_uid (cfg : Config) (a : AnalysisRec) (projUid : String)
    (rootRec : Option AnalysisRec) (cs : JMap) :
    jGet (derivedSettings cfg a projUid rootRec cs) "uid"
      = some (JVal.str a.uid) := by
  unfold derivedSettings
  rw [jGet_jSet_ne _ "uid" "root_uid" _ (by decide),
      jGet_jSet_ne _ "uid" "root_id" _ (by decide),
      jGet_jSet_ne _ "uid" "url" _ (by decide),
      jGet_jSet_ne _ "uid" "help" _ (by decide),
      jGet_jSet_self]

/-- Looking up `recipe_uid` in the derived settings returns the recipe's
uid. -/
theorem derivedSettings_recipe_uid (cfg : Config) (a : AnalysisRec)
    (projUid : String) (rootRec : Option AnalysisRec) (cs : JMap) :
    jGet (derivedSettings cfg a projUid rootRec cs) "recipe_uid"
      = some (JVal.str a.uid) := by
  unfold derivedSettings
  rw [jGet_jSet_ne _ "recipe_uid" "root_uid" _ (by decide),
      jGet_jSet_ne _ "recipe_uid" "root_id" _ (by decide),
      jGet_jSet_ne _ "recipe_uid" "url" _ (by decide),
      jGet_jSet_ne _ "recipe_uid" "help" _ (by decide),
      jGet_jSet_ne _ "recipe_uid" "uid" _ (by decide),
      jGet_jSet_self]

/-- Looking up `root_id` in the derived settings returns the root's id, or
the empty string for a root recipe. -/
theorem derivedSettings_root_id (cfg : Config) (a : AnalysisRec)
    (projUid : String) (rootRec : Option AnalysisRec) (cs : JMap) :
    jGet (derivedSettings cfg a projUid rootRec cs) "root_id"
      = some (match rootRec with
              | some r => JVal.num r.id
              | none => JVal.str "") := by
  unfold derivedSettings
  rw [jGet_jSet_ne _ "root_id" "root_uid" _ (by decide), jGet_jSet_self]

/-- Looking up `root_uid` in the derived settings returns the root's uid, or
the empty string for a root recipe. -/
theorem derivedSettings_root_uid (cfg : Config) (a : AnalysisRec)
    (projUid : String) (rootRec : Option AnalysisRec) (cs : JMap) :
    jGet (derivedSettings cfg a projUid rootRec cs) "root_uid"
      = some (match rootRec with
              | some r => JVal.str r.uid
              | none => JVal.str "") := by
  unfold derivedSettings
  rw [jGet_jSet_self]

/-- Under an assignable stored `settings` entry, `json_data` reduces to the
write-back of the derived settings over the stored ones. -/
theorem analysisJsonData_eq (cfg : Config) (db : DB) (a : AnalysisRec)
    (proj : ProjectRec) (hp : findProject db a.projectId = some proj)
    (rootRec : Option AnalysisRec) (hr : resolveRoot db a.root = some rootRec)
    (hs : settingsAssignable (cfg.parse a.json_text) = true) :
    ∃ cs0, analysisJsonData cfg db a =
        some (jSet ((cfg.parse a.json_text).getD []) "settings"
          (JVal.obj (derivedSettings cfg a proj.uid rootRec cs0))) := by
  unfold settingsAssignable at hs
  unfold analysisJsonData
  simp only [hp]
  cases hv : (jGet ((cfg.parse a.json_text).getD []) "settings").getD
      (JVal.obj []) with
  | obj kvs =>
      by_cases ht : jTruthy (JVal.obj kvs) = true
      · rw [if_pos ht, hr]
        exact ⟨kvs, rfl⟩
      · rw [if_neg ht, hr]
        exact ⟨[], rfl⟩
  | str v =>
      rw [hv] at hs
      simp only [Bool.not_eq_true'] at hs
      rw [if_neg (by simp [hs]), hr]
      exact ⟨[], rfl⟩
  | num v =>
      rw [hv] at hs
      simp only [Bool.not_eq_true'] at hs
      rw [if_neg (by simp [hs]), hr]
      exact ⟨[], rfl⟩
  | bool v =>
      rw [hv] at hs
      simp only [Bool.not_eq_true'] at hs
      rw [if_neg (by simp [hs]), hr]
      exact ⟨[], rfl⟩
  | arr v =>
      rw [hv] at hs
      simp only [Bool.not_eq_true'] at hs
      rw [if_neg (by simp [hs]), hr]
      exact ⟨[], rfl⟩

/-- C3 counterexample: on the payload `settings = 5` (valid toml, so the
parse succeeds and yields a truthy non-dict under `settings`), `json_data`
raises `TypeError` at `current_settings["name"] = ...` instead of returning
a mapping — modelled as `none`.  So materialization does not return a
`settings` mapping for *every* stored payload text. -/
theorem analysis_json_data_scalar_settings_cex :
    cfgScalarSettings.parse rootRecipe.json_text
      = some [("settings", JVal.num 5)] ∧
    jTruthy (JVal.num 5) = true ∧
    rootRecipe.root = none ∧
    analysisJsonData cfgScalarSettings dbClone rootRecipe = none :=
  ⟨rfl, by decide, rfl, rfl⟩

/-- C3 (amended): whenever the stored payload's `settings` entry is absent,
falsy, or a mapping (every case except a truthy non-dict, which makes the
property raise `TypeError`), `json_data` returns a mapping whose `settings`
dict carries `uid` and `recipe_uid` equal to the analysis's uid, and — when
the analysis has no root — empty-string `root_id` and `root_uid`. -/
theorem analysis_json_data_settings (cfg : Config) (db : DB) (a : AnalysisRec)
    (proj : ProjectRec) (hp : findProject db a.projectId = some proj)
    (rootRec : Option AnalysisRec) (hr : resolveRoot db a.root = some rootRec)
    (hs : settingsAssignable (cfg.parse a.json_text) = true) :
    ∃ m cs, analysisJsonData cfg db a = some m ∧
      jGet m "settings" = some (JVal.obj cs) ∧
      jGet cs "uid" = some (JVal.str a.uid) ∧
      jGet cs "recipe_uid" = some (JVal.str a.uid) ∧
      (a.root = none → jGet cs "root_id" = some (JVal.str "") ∧
                       jGet cs "root_uid" = some (JVal.str "")) := by
  obtain ⟨cs0, hm⟩ := analysisJsonData_eq cfg db a proj hp rootRec hr hs
  refine ⟨_, derivedSettings cfg a proj.uid rootRec cs0, hm,
          jGet_jSet_self _ _ _, derivedSettings_uid _ _ _ _ _,
          derivedSettings_recipe_uid _ _ _ _ _, fun hroot => ?_⟩
  have hnone : rootRec = none := by
    rw [hroot] at hr
    simp only [resolveRoot] at hr
    exact (Option.some_inj.mp hr).symm
  subst hnone
  exact ⟨derivedSettings_root_id _ _ _ _ _, derivedSettings_root_uid _ _ _ _ _⟩

/-- C3 witness: the amended theorem applied to a rootless recipe whose
stored payload carries a stale `settings` dict. -/
theorem analysis_json_data_settings_witness :
    findProject dbClone rootRecipe.projectId = some projBase ∧
    resolveRoot dbClone rootRecipe.root = some none ∧
    settingsAssignable (cfgStoredSettings.parse rootRecipe.json_text) = true ∧
    (∃ m cs, analysisJsonData cfgStoredSettings dbClone rootRecipe = some m ∧
      jGet m "settings" = some (JVal.obj cs) ∧
      jGet cs "uid" = some (JVal.str rootRecipe.uid) ∧
      jGet cs "recipe_uid" = some (JVal.str rootRecipe.uid) ∧
      (rootRecipe.root = none →
        jGet cs "root_id" = some (JVal.str "") ∧
        jGet cs "root_uid" = some (JVal.str ""))) :=
  ⟨rfl, rfl, by decide,
   analysis_json_data_settings cfgStoredSettings dbClone rootRecipe projBase
     rfl none rfl (by decide)⟩

/-- C4: a stored payload that fails to parse never propagates the failure:
`Analysis.json_data` logs, substitutes an empty mapping and returns exactly
the derived keys over the empty base, and `Job.json_data` returns the empty
mapping. -/
theorem json_data_fails_soft (cfg : Config) (db : DB) (a : AnalysisRec)
    (proj : ProjectRec) (rootRec : Option AnalysisRec) (j : JobRec)
    (hp : findProject db a.projectId = some proj)
    (hr : resolveRoot db a.root = some rootRec)
    (hmal : cfg.parse a.json_text = none)
    (hmalj : cfg.parse j.json_text = none) :
    analysisJsonData cfg db a =
      some [("settings",
             JVal.obj (derivedSettings cfg a proj.uid rootRec []))] ∧
    jobJsonData cfg j = [] := by
  constructor
  · unfold analysisJsonData
    simp only [hp, hmal, hr]
    rfl
  · unfold jobJsonData
    rw [hmalj]
    rfl

/-- C4 witness: the fail-soft theorem applied to a recipe and a job whose
payloads do not parse. -/
theorem json_data_fails_soft_witness :
    findProject dbClone rootRecipe.projectId = some projBase ∧
    resolveRoot dbClone rootRecipe.root = some none ∧
    cfgNoParse.parse rootRecipe.json_text = none ∧
    cfgNoParse.parse jobUnderReview.json_text = none ∧
    (analysisJsonData cfgNoParse dbClone rootRecipe =
      some [("settings",
             JVal.obj (derivedSettings cfgNoParse rootRecipe projBase.uid
               none []))] ∧
     jobJsonData cfgNoParse jobUnderReview = []) :=
  ⟨rfl, rfl, rfl, rfl,
   json_data_fails_soft cfgNoParse dbClone rootRecipe projBase none
     jobUnderReview rfl rfl rfl rfl⟩

/-- C6 (with `util.findfiles` modelled from the spec as the walk result in
the state): `make_toc` writes to the manifest the lexicographically sorted
walk result joined by newlines (overwriting), sets `file_count` to the
number of walked paths, and sums sizes only over paths that still exist at
size time (a vanished path contributes nothing).  In particular for a data
directory holding `b.txt` and `a.txt` the manifest reads
`"/d/a.txt\n/d/b.txt"` and `file_count = 2`. -/
theorem data_make_toc_spec (cfg : Config) (st : TocFs) (d : DataRec) :
    (∃ sorted : List String,
       List.Perm sorted st.dataFiles ∧
       List.Sorted (fun x y : String => x ≤ y) sorted ∧
       tocRead (dataMakeToc cfg st d).1.toc (tocPath cfg d.uid)
         = some (String.intercalate "\n" sorted) ∧
       (dataMakeToc cfg st d).2.file_count = st.dataFiles.length ∧
       (dataMakeToc cfg st d).2.size
         = sorted.foldl (fun acc e => acc + ((st.sizeOf e).getD 0)) 0) ∧
    (tocRead (dataMakeToc cfgNoParse tocFsScenario dataScenario).1.toc
        (tocPath cfgNoParse dataScenario.uid)
      = some "/d/a.txt\n/d/b.txt" ∧
     (dataMakeToc cfgNoParse tocFsScenario dataScenario).2.file_count = 2) := by
  constructor
  · refine ⟨st.dataFiles.insertionSort (fun x y => pyStrLe x y = true),
        List.perm_insertionSort _ _, ?_, ?_, ?_, rfl⟩
    · have h := List.sorted_insertionSort
        (fun x y : String => pyStrLe x y = true) st.dataFiles
      exact h.imp (fun hab => (pyStrLe_iff_le _ _).mp hab)
    · exact tocRead_tocWrite_self _ _ _
    · exact List.length_insertionSort _ _
  · exact ⟨by decide, by decide⟩

/-- C7: with no filesystem change in between, running `make_toc` twice
produces the same manifest content, size and file count as running it once —
the write is a plain overwrite and every computed value is a function of the
unchanged walk result. -/
theorem data_make_toc_idempotent (cfg : Config) (st : TocFs) (d : DataRec) :
    dataMakeToc cfg (dataMakeToc cfg st d).1 (dataMakeToc cfg st d).2
      = dataMakeToc cfg st d := by
  unfold dataMakeToc
  dsimp only
  rw [tocWrite_tocWrite]

/-- `Project.save` touches only the projects and accesses tables. -/
theorem projectSave_tables (cfg : Config) (db : DB) (p : ProjectRec)
    (now : Int) (t u : String) :
    (projectSave cfg db p now t u).datas = db.datas ∧
    (projectSave cfg db p now t u).analyses = db.analyses ∧
    (projectSave cfg db p now t u).jobs = db.jobs := by
  unfold projectSave updateAccess
  dsimp only
  split <;> exact ⟨rfl, rfl, rfl⟩

/-- After `Project.save`, looking the project up by its id finds exactly the
saved instance. -/
theorem findProject_projectSave (cfg : Config) (db : DB) (p : ProjectRec)
    (now : Int) (t u : String) :
    findProject (projectSave cfg db p now t u)
        (projectApplyDefaults cfg db p now t u).id
      = some (projectApplyDefaults cfg db p now t u) := by
  unfold projectSave updateAccess findProject
  dsimp only
  split <;> exact find?_upsertBy_self _ _ _

/-- After `set_counts(save=True)` the persisted project row carries exactly
the live (non-deleted) child counts of the table state at call time, and no
child table is touched. -/
theorem setCountsSave_spec (cfg : Config) (db : DB) (p : ProjectRec)
    (now : Int) (t u : String) :
    ∃ p', findProject (setCountsSave cfg db p now t u) p.id = some p' ∧
      p'.data_count = liveDataCount db p.id ∧
      p'.recipes_count = liveRecipeCount db p.id ∧
      p'.jobs_count = liveJobCount db p.id ∧
      (setCountsSave cfg db p now t u).datas = db.datas ∧
      (setCountsSave cfg db p now t u).analyses = db.analyses ∧
      (setCountsSave cfg db p now t u).jobs = db.jobs := by
  refine ⟨projectApplyDefaults cfg db
      { p with data_count := liveDataCount db p.id,
               recipes_count := liveRecipeCount db p.id,
               jobs_count := liveJobCount db p.id } now t u,
    ?_, rfl, rfl, rfl, ?_, ?_, ?_⟩
  · exact findProject_projectSave cfg db _ now t u
  · exact (projectSave_tables cfg db _ now t u).1
  · exact (projectSave_tables cfg db _ now t u).2.1
  · exact (projectSave_tables cfg db _ now t u).2.2

/-- After `Data.save` the project's persisted counts equal the live child
counts of the resulting table state — the data row is written *before*
`set_counts`, so the saved row is included. -/
theorem dataSave_counts (cfg : Config) (db : DB) (d : DataRec) (now : Int)
    (u1 u2 u3 : String) (db' : DB)
    (h : dataSave cfg db d now u1 u2 u3 = some db') :
    ∃ p', findProject db' d.projectId = some p' ∧
      p'.data_count = liveDataCount db' d.projectId ∧
      p'.recipes_count = liveRecipeCount db' d.projectId ∧
      p'.jobs_count = liveJobCount db' d.projectId := by
  unfold dataSave at h
  cases hp : findProject db d.projectId with
  | none => rw [hp] at h; simp at h
  | some p0 =>
      rw [hp] at h
      dsimp only at h
      have hdb : setCountsSave cfg { db with datas := upsertBy DataRec.id db.datas (dataApplyDefaults cfg d p0 now u1) } p0 now u2 u3 = db' :=
        Option.some_inj.mp h
      have hp2 : db.projects.find? (fun q => q.id == d.projectId) = some p0 :=
        hp
      have hpid : p0.id = d.projectId := by
        have hfact := List.find?_some hp2
        simpa using hfact
      subst hdb
      obtain ⟨p', hfind, hd, hr, hj, ht1, ht2, ht3⟩ :=
        setCountsSave_spec cfg { db with datas := upsertBy DataRec.id db.datas (dataApplyDefaults cfg d p0 now u1) } p0 now u2 u3
      rw [hpid] at hfind hd hr hj
      refine ⟨p', hfind, ?_, ?_, ?_⟩
      · rw [hd]; unfold liveDataCount; rw [ht1]
      · rw [hr]; unfold liveRecipeCount; rw [ht2]
      · rw [hj]; unfold liveJobCount; rw [ht3]

/-- After `Analysis.save` the project's persisted counts equal the live
child counts of the table state *before* the analysis row itself is written:
`set_counts(save=True)` runs before `super().save()`, so a newly created
recipe (or a just-toggled `deleted` flag) is not reflected. -/
theorem analysisSave_counts (cfg : Config) (db : DB) (a : AnalysisRec)
    (now : Int) (u1 u2 u3 : String) (db' : DB)
    (h : analysisSave cfg db a now u1 u2 u3 = some db') :
    ∃ p', findProject db' a.projectId = some p' ∧
      p'.data_count = liveDataCount db a.projectId ∧
      p'.recipes_count = liveRecipeCount db a.projectId ∧
      p'.jobs_count = liveJobCount db a.projectId := by
  unfold analysisSave at h
  cases hp : findProject db a.projectId with
  | none => rw [hp] at h; simp at h
  | some p0 =>
      rw [hp] at h
      dsimp only at h
      have hdb := Option.some_inj.mp h
      have hp2 : db.projects.find? (fun q => q.id == a.projectId) = some p0 :=
        hp
      have hpid : p0.id = a.projectId := by
        have hfact := List.find?_some hp2
        simpa using hfact
      subst hdb
      obtain ⟨p', hfind, hd, hr, hj, _, _, _⟩ :=
        setCountsSave_spec cfg
          (touchProject db p0.uid now
            (analysisApplyDefaults cfg a now u1).lastedit_user) p0 now u2 u3
      rw [hpid] at hfind hd hr hj
      exact ⟨p', hfind, hd, hr, hj⟩

/-- After `Job.save` the project's persisted counts equal the live child
counts of the table state *before* the job row itself is written:
`set_counts(save=True)` runs before `super().save()`. -/
theorem jobSave_counts (cfg : Config) (db : DB) (j : JobRec) (now : Int)
    (u1 u2 u3 : String) (db' : DB)
    (h : jobSave cfg db j now u1 u2 u3 = some db') :
    ∃ p', findProject db' j.projectId = some p' ∧
      p'.data_count = liveDataCount db j.projectId ∧
      p'.recipes_count = liveRecipeCount db j.projectId ∧
      p'.jobs_count = liveJobCount db j.projectId := by
  unfold jobSave at h
  cases ha : findAnalysis db j.analysisId with
  | none => rw [ha] at h; simp at h
  | some an =>
      cases hp : findProject db j.projectId with
      | none => rw [ha, hp] at h; simp at h
      | some p0 =>
          rw [ha, hp] at h
          dsimp only at h
          have hdb := Option.some_inj.mp h
          have hp2 : db.projects.find? (fun q => q.id == j.projectId)
              = some p0 := hp
          have hpid : p0.id = j.projectId := by
            have hfact := List.find?_some hp2
            simpa using hfact
          subst hdb
          obtain ⟨p', hfind, hd, hr, hj2, _, _, _⟩ :=
            setCountsSave_spec cfg db p0 now u2 u3
          rw [hpid] at hfind hd hr hj2
          exact ⟨p', hfind, hd, hr, hj2⟩

/-- C5 counterexample: creating a new (non-deleted) recipe in a project with
no recipes completes its save, but the persisted `recipes_count` is still 0
while the live count of non-deleted analysis rows is 1 — `Analysis.save`
recomputes the counts *before* inserting the analysis row, so the row just
saved is not included. -/
theorem analysis_save_count_stale_cex :
    liveRecipeCount dbEmpty 3 = 0 ∧
    newRecipe.deleted = false ∧ newRecipe.projectId = 3 ∧
    ((analysisSave cfgNoParse dbEmpty newRecipe 200 "u1" "u2" "u3").map
      (fun db => ((findProject db 3).map (fun p => p.recipes_count),
                  liveRecipeCount db 3)))
      = some (some 0, 1) :=
  ⟨by decide, rfl, rfl, by decide⟩

/-- C5 (amended): after a `Data` save the project's counts match the live
(non-deleted) children including the saved row; after an `Analysis` or `Job`
save the counts match the live children of the table state just *before*
the saved row is written, so a newly created row (or a just-changed
`deleted` flag) is not yet reflected. -/
theorem project_counts_after_child_save (cfg : Config) (db : DB) (now : Int)
    (u1 u2 u3 : String) :
    (∀ d db', dataSave cfg db d now u1 u2 u3 = some db' →
       ∃ p', findProject db' d.projectId = some p' ∧
         p'.data_count = liveDataCount db' d.projectId ∧
         p'.recipes_count = liveRecipeCount db' d.projectId ∧
         p'.jobs_count = liveJobCount db' d.projectId) ∧
    (∀ a db', analysisSave cfg db a now u1 u2 u3 = some db' →
       ∃ p', findProject db' a.projectId = some p' ∧
         p'.data_count = liveDataCount db a.projectId ∧
         p'.recipes_count = liveRecipeCount db a.projectId ∧
         p'.jobs_count = liveJobCount db a.projectId) ∧
    (∀ j db', jobSave cfg db j now u1 u2 u3 = some db' →
       ∃ p', findProject db' j.projectId = some p' ∧
         p'.data_count = liveDataCount db j.projectId ∧
         p'.recipes_count = liveRecipeCount db j.projectId ∧
         p'.jobs_count = liveJobCount db j.projectId) :=
  ⟨fun d db' h => dataSave_counts cfg db d now u1 u2 u3 db' h,
   fun a db' h => analysisSave_counts cfg db a now u1 u2 u3 db' h,
   fun j db' h => jobSave_counts cfg db j now u1 u2 u3 db' h⟩

/-- C5 witness: the count theorem applied to concrete data, recipe and job
saves in the two-project fixture database. -/
theorem project_counts_after_child_save_witness :
    dataSave cfgNoParse dbEmptyWithRecipe newData 200 "u1" "u2" "u3"
      = some dbWDataSaved ∧
    analysisSave cfgNoParse dbEmptyWithRecipe newRecipe 200 "u1" "u2" "u3"
      = some dbWRecipeSaved ∧
    jobSave cfgNoParse dbEmptyWithRecipe newJob 200 "u1" "u2" "u3"
      = some dbWJobSaved ∧
    (∃ p', findProject dbWDataSaved newData.projectId = some p' ∧
       p'.data_count = liveDataCount dbWDataSaved newData.projectId ∧
       p'.recipes_count = liveRecipeCount dbWDataSaved newData.projectId ∧
       p'.jobs_count = liveJobCount dbWDataSaved newData.projectId) ∧
    (∃ p', findProject dbWRecipeSaved newRecipe.projectId = some p' ∧
       p'.data_count = liveDataCount dbEmptyWithRecipe newRecipe.projectId ∧
       p'.recipes_count
          = liveRecipeCount dbEmptyWithRecipe newRecipe.projectId ∧
       p'.jobs_count = liveJobCount dbEmptyWithRecipe newRecipe.projectId) ∧
    (∃ p', findProject dbWJobSaved newJob.projectId = some p' ∧
       p'.data_count = liveDataCount dbEmptyWithRecipe newJob.projectId ∧
       p'.recipes_count = liveRecipeCount dbEmptyWithRecipe newJob.projectId ∧
       p'.jobs_count = liveJobCount dbEmptyWithRecipe newJob.projectId) :=
  ⟨rfl, rfl, rfl,
   (project_counts_after_child_save cfgNoParse dbEmptyWithRecipe 200
      "u1" "u2" "u3").1 newData dbWDataSaved rfl,
   (project_counts_after_child_save cfgNoParse dbEmptyWithRecipe 200
      "u1" "u2" "u3").2.1 newRecipe dbWRecipeSaved rfl,
   (project_counts_after_child_save cfgNoParse dbEmptyWithRecipe 200
      "u1" "u2" "u3").2.2 newJob dbWJobSaved rfl⟩
